import Mathlib

/-!
# goldenfiles: golden-file assertions

A shallow embedding of `goldenfiles.go` and `errors.go`.

Conventions of the embedding.

* A Go `string` is a Lean `String` (text that is valid UTF-8); a Go `[]byte` is a
  `List UInt8`; `[]byte(s)` is the UTF-8 encoding of `s`.
* The file system and the record of the calls made on the `TestingT` value are
  explicit state (`World`), threaded through every operation. A path names a file
  through the links of the file system, so two paths can name one file.
* Functions of other packages are either modelled after the Go standard library
  (`path.Join`, `path.Clean`, `strconv.Quote`, `bytes.Compare`, `ioutil.WriteFile`)
  or, where they are table driven or belong to third-party packages, taken as
  fields of `Env` (`sanitize.BaseName`, the diff renderer, the Unicode tables
  behind `strconv.IsPrint`) or as an argument (`json.MarshalIndent`).
-/

namespace Goldenfiles

/-! ## Data model -/

/-- Go `[]byte`. -/
abbrev Bytes := List UInt8

/-- Go `[]byte(s)`: the UTF-8 bytes of a string. -/
def stringBytes (s : String) : Bytes := s.toUTF8.data.toList

/-- Config defines additional options that can be overridden for each golden
file assertion. -/
structure Config where
  /-- Name provides an additional name segment added to the golden file name. -/
  Name : String := ""
  /-- Suffix overrides the default golden file suffix for the current test type. -/
  Suffix : String := ""
deriving DecidableEq, Repr

/-- One call made on a `TestingT` value. `Errorf` carries the formatted message. -/
inductive TCall where
  | Errorf (msg : String)
  | FailNow
deriving DecidableEq, Repr

/-- The `TestingT` interface value handed to an assertion. `Name` is what `Name()`
returns. `FailNowReturns` tells whether `FailNow()` returns to its caller (as the
recording stand-in of the tests does) or terminates the calling goroutine (as
`testing.T` does). Calls of `Errorf` and `FailNow` are recorded in the `World`. -/
structure TestingT where
  Name : String
  FailNowReturns : Bool
deriving DecidableEq, Repr

/-- Package variables and the functions of third-party packages the code calls. -/
structure Env where
  /-- The package variable `GoldenFilePath` (default `"./testdata"`). -/
  GoldenFilePath : String
  /-- The package variable `ReceivedFilePerms` (default `0644`). -/
  ReceivedFilePerms : Nat
  /-- The function `sanitize.BaseName` of `github.com/kennygrant/sanitize`. -/
  BaseName : String → String
  /-- The rendered diff `DiffPrettyText(DiffMain(string(a), string(b), false))` of
  `github.com/sergi/go-diff/diffmatchpatch`. -/
  DiffPrettyText : Bytes → Bytes → String
  /-- The table lookup of `strconv.IsPrint` for runes above `0xFF`. -/
  isPrintTable : Char → Bool

/-! ## Naming -/

/-- The variadic `config ...Config` resolves to its first element, or to the zero
`Config`. -/
def getConfig (c : List Config) : Config :=
  match c with
  | c0 :: _ => c0
  | [] => {}

/-- The golden file name `fmt.Sprintf("%s%s.golden%s", sanitizedTestName, name, suffix)`. -/
def buildGoldenFileName (e : Env) (t : TestingT) (c : Config) : String :=
  let suffix := if c.Suffix ≠ "" then c.Suffix else ".txt"
  let name := if c.Name ≠ "" then "." ++ c.Name else c.Name
  let testName := t.Name
  let sanitizedTestName := e.BaseName testName
  sanitizedTestName ++ name ++ ".golden" ++ suffix

/-- The received file name `fmt.Sprintf("%s.received", goldenFileName)`. -/
def buildReceivedFileName (goldenFileName : String) : String :=
  goldenFileName ++ ".received"

/-! ## `path.Clean` and `path.Join` of the Go standard library -/

/-- The elements of a path between its slashes. -/
def splitSlash : List Char → List (List Char)
  | [] => [[]]
  | c :: cs =>
    if c = '/' then [] :: splitSlash cs
    else
      match splitSlash cs with
      | [] => [[c]]
      | el :: els => (c :: el) :: els

/-- The output buffer of `path.Clean` and the index `dotdot` where backtracking
must stop. -/
structure CleanState where
  out : List Char
  dotdot : Nat
deriving DecidableEq, Repr

/-- The loop `for out.w > dotdot && out.index(out.w) != '/' { out.w-- }`, started
at write index `w`. -/
def backtrack (out : List Char) (dotdot : Nat) : Nat → Nat
  | 0 => 0
  | w + 1 =>
    if w + 1 > dotdot ∧ out.getD (w + 1) '/' ≠ '/' then backtrack out dotdot w else w + 1

/-- One iteration of the loop of `path.Clean` on the path element `el`: an empty
element and `.` are skipped, `..` backtracks (or is kept in front of an unrooted
path), any other element is copied behind a slash. -/
def cleanStep (rooted : Bool) (st : CleanState) (el : List Char) : CleanState :=
  if el = [] then st
  else if el = ['.'] then st
  else if el = ['.', '.'] then
    if st.out.length > st.dotdot then
      { st with out := st.out.take (backtrack st.out st.dotdot (st.out.length - 1)) }
    else if rooted = false then
      let o := (if st.out.length > 0 then st.out ++ ['/'] else st.out) ++ ['.', '.']
      { out := o, dotdot := o.length }
    else st
  else
    let o :=
      if (rooted = true ∧ st.out.length ≠ 1) ∨ (rooted = false ∧ st.out.length ≠ 0) then
        st.out ++ ['/']
      else st.out
    { st with out := o ++ el }

/-- The loop of `path.Clean` on a non-empty path: a rooted path starts the output
with its slash and is read from index 1; then each element is processed in turn. -/
def cleanLoop (path : List Char) : CleanState :=
  let rooted : Bool := path.head? = some '/'
  let init : CleanState := if rooted then ⟨['/'], 1⟩ else ⟨[], 0⟩
  let rest := if rooted then path.tail else path
  (splitSlash rest).foldl (cleanStep rooted) init

/-- Go `path.Clean`: the shortest path name equivalent to `path` by purely lexical
processing; the empty path and an empty output give `"."`. -/
def Clean (path : String) : String :=
  if path = "" then "."
  else
    let st := cleanLoop path.data
    if st.out.length = 0 then "." else ⟨st.out⟩

/-- Go `path.Join` of two elements: empty elements are ignored, the others are
joined by a slash and the result is cleaned; two empty elements give `""`. -/
def Join (a b : String) : String :=
  if a = "" then (if b = "" then "" else Clean b)
  else Clean (a ++ "/" ++ b)

/-- The received file path `path.Join(GoldenFilePath, buildReceivedFileName(goldenFileName))`. -/
def buildReceivedFilePath (e : Env) (goldenFileName : String) : String :=
  Join e.GoldenFilePath (buildReceivedFileName goldenFileName)

/-! ## `strconv.Quote` (the verb `%q` of `fmt`) -/

/-- Go `strconv.IsPrint`: the fast path for Latin-1, the tables above it. -/
def IsPrint (e : Env) (r : Char) : Bool :=
  if r.toNat ≤ 0xFF then
    if 0x20 ≤ r.toNat ∧ r.toNat ≤ 0x7E then true
    else if 0xA1 ≤ r.toNat ∧ r.toNat ≤ 0xFF then r.toNat ≠ 0xAD
    else false
  else e.isPrintTable r

/-- The digit `lowerhex[n & 0xF]` of `"0123456789abcdef"`. -/
def lowerhex (n : Nat) : Char := "0123456789abcdef".data.getD (n % 16) '0'

/-- The double quote, the quote character of `strconv.Quote`. -/
def dquote : Char := Char.ofNat 0x22

/-- The backslash. -/
def backslash : Char := Char.ofNat 0x5C

/-- Go `appendEscapedRune` with `quote = '"'`, `ASCIIonly = false` and
`graphicOnly = false`: the quote and the backslash are always backslashed,
printable runes are copied, the others are escaped. -/
def appendEscapedRune (e : Env) (r : Char) : List Char :=
  if r = dquote ∨ r = backslash then [backslash, r]
  else if IsPrint e r then [r]
  else
    match r.toNat with
    | 0x07 => [backslash, 'a']
    | 0x08 => [backslash, 'b']
    | 0x0C => [backslash, 'f']
    | 0x0A => [backslash, 'n']
    | 0x0D => [backslash, 'r']
    | 0x09 => [backslash, 't']
    | 0x0B => [backslash, 'v']
    | n =>
      if n < 0x20 ∨ n = 0x7F then [backslash, 'x', lowerhex (n / 16), lowerhex n]
      else if n < 0x10000 then
        [backslash, 'u', lowerhex (n / 4096), lowerhex (n / 256), lowerhex (n / 16), lowerhex n]
      else
        [backslash, 'U', lowerhex (n / 268435456), lowerhex (n / 16777216),
          lowerhex (n / 1048576), lowerhex (n / 65536), lowerhex (n / 4096),
          lowerhex (n / 256), lowerhex (n / 16), lowerhex n]

/-- Go `strconv.Quote(s)`, which is what `fmt` prints for `%q`: the escaped runes of
`s` between double quotes. -/
def Quote (e : Env) (s : String) : String :=
  ⟨dquote :: (s.data.flatMap (appendEscapedRune e) ++ [dquote])⟩

/-! ## Errors -/

/-- The Go `error` values that `compare` returns: the two error types of
`errors.go`, and any other error (of `os` and `io`), which carries its message. -/
inductive GoError where
  | errGoldenFileMismatch (goldenFileName : String) (golden received : Bytes)
  | errGoldenFileMissing (goldenFileName : String) (received : Bytes)
  | other (msg : String)
deriving DecidableEq, Repr

/-- The method `Error()` of each error. -/
def GoError.Error (e : Env) : GoError → String
  | .errGoldenFileMismatch goldenFileName golden received =>
    "failed to verify " ++ Quote e goldenFileName ++
      ", received value did not match golden file contents.\n\n" ++
      e.DiffPrettyText golden received ++ "\n"
  | .errGoldenFileMissing goldenFileName received =>
    "failed to verify " ++ Quote e goldenFileName ++ ", golden file missing.\n\n" ++
      e.DiffPrettyText [] received ++ "\n"
  | .other msg => msg

/-! ## File system and test harness state -/

/-- What a path names. A file that exists and can be read has a content; an entry
that cannot be opened (permission denied, ...) or that opens but cannot be read
(a directory, a device error, ...) yields the error message of the failing call. -/
inductive Node where
  | missing
  | file (content : Bytes)
  | unopenable (msg : String)
  | unreadable (msg : String)
deriving DecidableEq, Repr

/-- How a call of `ioutil.WriteFile` fails: in `OpenFile`, before anything is
created or truncated, or later, when only the first `written` bytes are stored. -/
inductive WriteFault where
  | openFailed (msg : String)
  | writeFailed (written : Nat) (msg : String)
deriving DecidableEq, Repr

/-- The file system. `target` gives the file that a path names once the symbolic
and hard links on it are followed: two paths name the same file exactly when they
have the same target, and without links every path is its own target. `node` is
the state of each file, by target; `writeErr` tells which writes fail, by path. -/
structure FileSystem where
  target : String → String
  node : String → Node
  writeErr : String → Option WriteFault

/-- What a path names: the state of the file behind it. -/
def FileSystem.lookup (fs : FileSystem) (path : String) : Node :=
  fs.node (fs.target path)

/-- The state an assertion runs in: the file system and the calls made so far on
the `TestingT` value, oldest first. -/
structure World where
  fs : FileSystem
  calls : List TCall

/-- An error of package `os`: its message and whether `os.IsNotExist` holds of it. -/
structure OsError where
  msg : String
  notExist : Bool
deriving DecidableEq, Repr

/-- Go `os.Open(name)`: the opened file (represented by its target) or an error. -/
def osOpen (fs : FileSystem) (name : String) : Except OsError String :=
  match fs.lookup name with
  | .missing => .error ⟨"open " ++ name ++ ": no such file or directory", true⟩
  | .unopenable msg => .error ⟨msg, false⟩
  | .file _ => .ok (fs.target name)
  | .unreadable _ => .ok (fs.target name)

/-- Go `ioutil.ReadAll(f)` on an opened file. -/
def readAllFile (fs : FileSystem) (f : String) : Except String Bytes :=
  match fs.node f with
  | .file content => .ok content
  | .unreadable msg => .error msg
  | .unopenable msg => .error msg
  | .missing => .error "file already closed"

/-- Go `ioutil.WriteFile(filename, data, perm)`: open with
`O_WRONLY|O_CREATE|O_TRUNC`, write, close. The open follows links, so the file
written (or created) is the target of `filename`. The permission bits are not part
of the modelled state. Returns the new file system and the error, if any. -/
def WriteFile (fs : FileSystem) (filename : String) (data : Bytes) (_perm : Nat) :
    FileSystem × Option String :=
  match fs.writeErr filename with
  | none =>
    ({ fs with node := Function.update fs.node (fs.target filename) (.file data) }, none)
  | some (.openFailed msg) => (fs, some msg)
  | some (.writeFailed written msg) =>
    ({ fs with
        node := Function.update fs.node (fs.target filename) (.file (data.take written)) },
      some msg)

/-- An `io.Reader`: the bytes it yields and the error, if any, that ends the read. -/
structure Reader where
  data : Bytes
  err : Option String
deriving DecidableEq, Repr

/-- Go `strings.NewReader(s)`. -/
def NewReader (s : String) : Reader := ⟨stringBytes s, none⟩

/-- The call `t.Errorf(format, args...)`, recorded with its formatted message. -/
def Errorf (msg : String) (w : World) : World :=
  { w with calls := w.calls ++ [TCall.Errorf msg] }

/-- The call `t.FailNow()`: recorded; `none` when it does not return. -/
def FailNow (t : TestingT) (w : World) : Option Unit × World :=
  (if t.FailNowReturns then some () else none, { w with calls := w.calls ++ [TCall.FailNow] })

/-! ## Comparison -/

/-- Go `bytes.Compare`: lexicographic comparison, `0` if equal, `-1` if `a < b`,
`+1` if `a > b`. -/
def bytesCompare : Bytes → Bytes → Int
  | [], [] => 0
  | [], _ :: _ => -1
  | _ :: _, [] => 1
  | a :: as, b :: bs =>
    if a < b then -1 else if b < a then 1 else bytesCompare as bs

/-- The function `compare`: `none` is the `nil` error. It only reads the file system. -/
def compare (e : Env) (fs : FileSystem) (_t : TestingT) (goldenFileName : String)
    (r : Reader) : Option GoError :=
  match r.err with
  | some err => some (.other err)
  | none =>
    let s := r.data
    match osOpen fs (Join e.GoldenFilePath goldenFileName) with
    | .error err =>
      if err.notExist then some (.errGoldenFileMissing goldenFileName s)
      else some (.other err.msg)
    | .ok f =>
      match readAllFile fs f with
      | .error err => some (.other err)
      | .ok golden =>
        if bytesCompare golden s = 0 then none
        else some (.errGoldenFileMismatch goldenFileName golden s)

/-! ## Public API -/

/-- The function `writeReceivedFile`; `none` when `FailNow` does not return. -/
def writeReceivedFile (e : Env) (t : TestingT) (goldenFileName : String) (received : Bytes)
    (w : World) : Option Unit × World :=
  let receivedFilePath := buildReceivedFilePath e goldenFileName
  match WriteFile w.fs receivedFilePath received e.ReceivedFilePerms with
  | (fs1, none) => (some (), { w with fs := fs1 })
  | (fs1, some err) =>
    FailNow t (Errorf ("failed to write received file: " ++ err) { w with fs := fs1 })

/-- EqualString tests for golden file equality against a string. The result is
`none` when the call does not return because `FailNow` ended the goroutine. -/
def EqualString (e : Env) (t : TestingT) (s : String) (config : List Config) (w : World) :
    Option Bool × World :=
  let c := getConfig config
  let goldenFileName := buildGoldenFileName e t c
  match compare e w.fs t goldenFileName (NewReader s) with
  | none => (some true, w)
  | some err =>
    match err with
    | .errGoldenFileMismatch _ _ received =>
      match writeReceivedFile e t goldenFileName received (Errorf (err.Error e) w) with
      | (some _, w1) => (some false, w1)
      | (none, w1) => (none, w1)
    | .errGoldenFileMissing _ received =>
      match writeReceivedFile e t goldenFileName received (Errorf (err.Error e) w) with
      | (some _, w1) => (some false, w1)
      | (none, w1) => (none, w1)
    | .other _ =>
      match FailNow t (Errorf (err.Error e) w) with
      | (some _, w1) => (some false, w1)
      | (none, w1) => (none, w1)

/-- The function `prettyPrintJSON`: `json.MarshalIndent(obj, "", "  ")`, taken as the
argument `marshalIndent`, with its result converted to a string. -/
def prettyPrintJSON {Obj : Type} (marshalIndent : Obj → String × Option String) (obj : Obj) :
    String × Option String :=
  let (b, err) := marshalIndent obj
  (b, err)

/-- EqualJSON tests for golden file equality against an object that gets
marshalled into a JSON string. -/
def EqualJSON {Obj : Type} (marshalIndent : Obj → String × Option String) (e : Env)
    (t : TestingT) (obj : Obj) (config : List Config) (w : World) : Option Bool × World :=
  let c := getConfig config
  match prettyPrintJSON marshalIndent obj with
  | (_, some err) =>
    (some false, Errorf ("failed to serialize received object as json: " ++ err) w)
  | (json, none) =>
    let c := if c.Suffix = "" then { c with Suffix := ".json" } else c
    EqualString e t json [c] w

/-! ## Sample values -/

/-- A sample environment: the default package variables, a `BaseName` that turns
slashes into dashes, a diff renderer that shows both contents by their lengths,
and no printable rune above Latin-1. -/
def sampleEnv : Env where
  GoldenFilePath := "./testdata"
  ReceivedFilePerms := 0o644
  BaseName := fun s => ⟨s.data.map fun c => if c = '/' then '-' else c⟩
  DiffPrettyText := fun g r => "(-" ++ toString g.length ++ " +" ++ toString r.length ++ ")"
  isPrintTable := fun _ => false

/-- A sample test identity whose `FailNow` returns, as the one of the tests does. -/
def sampleT : TestingT := ⟨"CustomConfig", true⟩

/-- A sample file system without links: one golden file,
`testdata/CustomConfig.golden.txt`, holding `"golden\n"`; every write succeeds. -/
def sampleFS : FileSystem where
  target := fun p => p
  node := fun p =>
    if p = "testdata/CustomConfig.golden.txt" then .file (stringBytes "golden\n") else .missing
  writeErr := fun _ => none

/-- The sample file system in a world where no call was made yet. -/
def sampleWorld : World := ⟨sampleFS, []⟩

/-- Promotion, the step a developer takes between two runs: the content of the file
at `src` is copied to the path `dst`. -/
def copyFile (fs : FileSystem) (src dst : String) : FileSystem :=
  match fs.lookup src with
  | .file content =>
    { fs with node := Function.update fs.node (fs.target dst) (.file content) }
  | _ => fs

/-- The golden file path `path.Join(GoldenFilePath, goldenFileName)` that `compare`
opens for the assertion of test `t` under the variadic `config`. -/
def goldenFilePathOf (e : Env) (t : TestingT) (config : List Config) : String :=
  Join e.GoldenFilePath (buildGoldenFileName e t (getConfig config))

/-- The received file path of the assertion of test `t` under the variadic `config`. -/
def receivedFilePathOf (e : Env) (t : TestingT) (config : List Config) : String :=
  buildReceivedFilePath e (buildGoldenFileName e t (getConfig config))

/-- The `Config` that `EqualJSON` hands to `EqualString`: `Suffix` is `".json"` unless
the caller set one. -/
def jsonConfig (config : List Config) : Config :=
  if (getConfig config).Suffix = "" then { getConfig config with Suffix := ".json" }
  else getConfig config

/-- Sample objects to serialize: a text, which marshals, and a channel, which does not. -/
inductive SampleObj where
  | text (s : String)
  | channel
deriving DecidableEq, Repr

/-- A sample `json.MarshalIndent` on the sample objects. -/
def sampleMarshal : SampleObj → String × Option String
  | .text s => (Quote sampleEnv s, none)
  | .channel => ("", some "json: unsupported type: chan int")

/-- A sample world after an earlier failing run: the golden file holds `"golden\n"`
and a stale received file, holding more bytes than the next run receives, lies
beside it. -/
def staleWorld : World where
  fs :=
    { target := fun p => p
      node := fun p =>
        if p = "testdata/CustomConfig.golden.txt" then .file (stringBytes "golden\n")
        else if p = "testdata/CustomConfig.golden.txt.received" then
          .file (stringBytes "a stale and longer received text\n")
        else .missing
      writeErr := fun _ => none }
  calls := []

/-- The name segment that `buildGoldenFileName` puts behind the sanitized test name:
`.{Name}`, or nothing when `Config.Name` is empty. -/
def nameSegment (c : Config) : String :=
  if c.Name ≠ "" then "." ++ c.Name else c.Name

/-- A path that `path.Clean` leaves as it is wherever it stands behind a slash: none
of its elements is empty, `.` or `..`. A name without a slash is such a path. -/
def plainPath (f : String) : Bool :=
  (splitSlash f.data).all fun el => decide (el ≠ [] ∧ el ≠ ['.'] ∧ el ≠ ['.', '.'])

/-- The elements of a path put together again, a slash between two of them. -/
def joinSlash : List (List Char) → List Char
  | [] => []
  | [el] => el
  | el :: e2 :: els => el ++ '/' :: joinSlash (e2 :: els)

/-- A sample world in which the received file path of the sample test is a link to
its golden file, which holds `"golden\n"`. -/
def linkedWorld : World where
  fs :=
    { target := fun p =>
        if p = "testdata/CustomConfig.golden.txt.received" then
          "testdata/CustomConfig.golden.txt"
        else p
      node := fun p =>
        if p = "testdata/CustomConfig.golden.txt" then .file (stringBytes "golden\n")
        else .missing
      writeErr := fun _ => none }
  calls := []

/-! ## Naming: theorems -/

theorem string_append_left_cancel {a b c : String} (h : a ++ b = a ++ c) : b = c := by
  have h1 := congrArg String.data h
  simp only [String.data_append] at h1
  exact String.ext (List.append_cancel_left h1)

theorem string_dot_append_ne_empty (a : String) : "." ++ a ≠ "" := by
  intro h
  have h1 := congrArg String.data h
  simp [String.data_append] at h1

/-- The name segment is injective in `Config.Name`. -/
theorem nameSegment_injective {a b : String}
    (h : (if a ≠ "" then "." ++ a else a) = (if b ≠ "" then "." ++ b else b)) : a = b := by
  by_cases ha : a = "" <;> by_cases hb : b = ""
  · rw [ha, hb]
  · simp only [ha, hb, ne_eq, not_true_eq_false, not_false_eq_true, if_true, if_false] at h
    exact absurd h.symm (string_dot_append_ne_empty b)
  · simp only [ha, hb, ne_eq, not_true_eq_false, not_false_eq_true, if_true, if_false] at h
    exact absurd h (string_dot_append_ne_empty a)
  · simp only [ha, hb, ne_eq, not_false_eq_true, if_true] at h
    exact string_append_left_cancel h

/-- The golden file name is the sanitized test name, the name segment, `.golden`
and the suffix. -/
theorem buildGoldenFileName_eq (e : Env) (t : TestingT) (c : Config) :
    buildGoldenFileName e t c =
      e.BaseName t.Name ++ (if c.Name ≠ "" then "." ++ c.Name else "") ++ ".golden" ++
        (if c.Suffix ≠ "" then c.Suffix else ".txt") := by
  unfold buildGoldenFileName
  by_cases hn : c.Name = ""
  · simp [hn]
  · simp [hn]

/-- C6: for every test identity and Config, buildGoldenFileName returns
sanitize(testName) ++ n ++ ".golden" ++ x, where n is "." ++ Config.Name when
Config.Name is non-empty and empty otherwise, and x is Config.Suffix when it is
non-empty and ".txt" otherwise; with no config the name is
sanitize(testName) ++ ".golden.txt"; and Config{Name:"custom-name", Suffix:".test"}
with test identity "CustomConfig" (which sanitize.BaseName leaves as it is) yields
exactly "CustomConfig.custom-name.golden.test". -/
theorem buildGoldenFileName_shape (e : Env) (t : TestingT) (c : Config) :
    buildGoldenFileName e t c =
        e.BaseName t.Name ++ (if c.Name ≠ "" then "." ++ c.Name else "") ++ ".golden" ++
          (if c.Suffix ≠ "" then c.Suffix else ".txt")
      ∧ buildGoldenFileName e t (getConfig []) = e.BaseName t.Name ++ ".golden.txt"
      ∧ (t.Name = "CustomConfig" → e.BaseName "CustomConfig" = "CustomConfig" →
          buildGoldenFileName e t { Name := "custom-name", Suffix := ".test" } =
            "CustomConfig.custom-name.golden.test") := by
  refine ⟨buildGoldenFileName_eq e t c, ?_, ?_⟩
  · have h0 : e.BaseName t.Name ++ "" = e.BaseName t.Name := String.ext (by simp)
    simp only [buildGoldenFileName, getConfig, ne_eq, not_true_eq_false, if_false, h0]
    exact String.ext (by simp [String.data_append])
  · intro hN hB
    simp only [buildGoldenFileName, hN, hB]
    decide

/-- Witness of C6 at the sample environment and the test identity "CustomConfig". -/
theorem buildGoldenFileName_shape_witness :
    buildGoldenFileName sampleEnv sampleT { Name := "custom-name", Suffix := ".test" } =
      "CustomConfig.custom-name.golden.test" :=
  (buildGoldenFileName_shape sampleEnv sampleT {}).2.2 rfl (by decide)

/-! ## Comparison: theorems -/

theorem bytesCompare_self (a : Bytes) : bytesCompare a a = 0 := by
  induction a with
  | nil => rfl
  | cons x xs ih => simp [bytesCompare, ih]

theorem bytesCompare_eq_zero : ∀ (a b : Bytes), bytesCompare a b = 0 → a = b
  | [], [], _ => rfl
  | [], _ :: _, h => by simp [bytesCompare] at h
  | _ :: _, [], h => by simp [bytesCompare] at h
  | x :: xs, y :: ys, h => by
    simp only [bytesCompare] at h
    by_cases h1 : x < y
    · simp [h1] at h
    · by_cases h2 : y < x
      · simp [h1, h2] at h
      · simp only [h1, h2, if_false] at h
        have hxy : x = y := UInt8.le_antisymm (UInt8.not_lt.mp h2) (UInt8.not_lt.mp h1)
        rw [hxy, bytesCompare_eq_zero xs ys h]

theorem bytesCompare_eq_zero_iff (a b : Bytes) : bytesCompare a b = 0 ↔ a = b :=
  ⟨bytesCompare_eq_zero a b, fun h => h ▸ bytesCompare_self a⟩

theorem compare_missing (e : Env) (fs : FileSystem) (t : TestingT) (goldenFileName : String)
    (r : Bytes) (h : fs.lookup (Join e.GoldenFilePath goldenFileName) = .missing) :
    compare e fs t goldenFileName ⟨r, none⟩ = some (.errGoldenFileMissing goldenFileName r) := by
  simp [compare, osOpen, h]

theorem compare_equal (e : Env) (fs : FileSystem) (t : TestingT) (goldenFileName : String)
    (r : Bytes) (h : fs.lookup (Join e.GoldenFilePath goldenFileName) = .file r) :
    compare e fs t goldenFileName ⟨r, none⟩ = none := by
  have h1 : fs.node (fs.target (Join e.GoldenFilePath goldenFileName)) = .file r := h
  simp [compare, osOpen, readAllFile, h, h1, bytesCompare_self]

theorem compare_differ (e : Env) (fs : FileSystem) (t : TestingT) (goldenFileName : String)
    (g r : Bytes) (h : fs.lookup (Join e.GoldenFilePath goldenFileName) = .file g) (hne : g ≠ r) :
    compare e fs t goldenFileName ⟨r, none⟩ =
      some (.errGoldenFileMismatch goldenFileName g r) := by
  have hc : bytesCompare g r ≠ 0 := fun h0 => hne (bytesCompare_eq_zero g r h0)
  have h1 : fs.node (fs.target (Join e.GoldenFilePath goldenFileName)) = .file g := h
  simp [compare, osOpen, readAllFile, h, h1, hc]

/-- C1: compare is decided by the golden file alone, byte for byte. For every golden
file name and every received byte sequence r read without error: (1) if no file
exists at the golden file path the result is errGoldenFileMissing with that name
and r; (2) if the file holds g and g = r the result is nil; (3) if the file holds
g and g differs from r the result is errGoldenFileMismatch with that name, g and
r; in particular a golden file that is r followed by one newline is a mismatch. -/
theorem compare_decided_by_golden_file (e : Env) (fs : FileSystem) (t : TestingT)
    (goldenFileName : String) (r : Bytes) :
    (fs.lookup (Join e.GoldenFilePath goldenFileName) = .missing →
        compare e fs t goldenFileName ⟨r, none⟩ =
          some (.errGoldenFileMissing goldenFileName r))
      ∧ (∀ g, fs.lookup (Join e.GoldenFilePath goldenFileName) = .file g → g = r →
          compare e fs t goldenFileName ⟨r, none⟩ = none)
      ∧ (∀ g, fs.lookup (Join e.GoldenFilePath goldenFileName) = .file g → g ≠ r →
          compare e fs t goldenFileName ⟨r, none⟩ =
            some (.errGoldenFileMismatch goldenFileName g r))
      ∧ (fs.lookup (Join e.GoldenFilePath goldenFileName) = .file (r ++ [0x0A]) →
          compare e fs t goldenFileName ⟨r, none⟩ =
            some (.errGoldenFileMismatch goldenFileName (r ++ [0x0A]) r)) := by
  refine ⟨compare_missing e fs t goldenFileName r, ?_, ?_, ?_⟩
  · intro g hg hgr
    subst hgr
    exact compare_equal e fs t goldenFileName g hg
  · intro g hg hgr
    exact compare_differ e fs t goldenFileName g r hg hgr
  · intro hg
    exact compare_differ e fs t goldenFileName _ r hg (by simp)

/-- Witness of C1: the sample golden file holds "golden\n"; the received bytes
"golden", which lack the trailing newline, are a mismatch, and the empty received
bytes against a missing golden file are reported as missing. -/
theorem compare_decided_by_golden_file_witness :
    compare sampleEnv sampleFS sampleT "CustomConfig.golden.txt" ⟨stringBytes "golden", none⟩ =
        some (.errGoldenFileMismatch "CustomConfig.golden.txt"
          (stringBytes "golden" ++ [0x0A]) (stringBytes "golden"))
      ∧ compare sampleEnv sampleFS sampleT "Other.golden.txt" ⟨[], none⟩ =
        some (.errGoldenFileMissing "Other.golden.txt" []) :=
  ⟨(compare_decided_by_golden_file sampleEnv sampleFS sampleT "CustomConfig.golden.txt"
      (stringBytes "golden")).2.2.2 (by decide),
    (compare_decided_by_golden_file sampleEnv sampleFS sampleT "Other.golden.txt" []).1
      (by decide)⟩

/-! ## Public API: theorems -/

/-- The world after a failing assertion whose received file was written: the
message is reported once and the received file holds the received bytes. -/
theorem EqualString_missing (e : Env) (t : TestingT) (s : String) (config : List Config)
    (w : World) (hgolden : w.fs.lookup (goldenFilePathOf e t config) = .missing)
    (hwrite : w.fs.writeErr (receivedFilePathOf e t config) = none) :
    EqualString e t s config w =
      (some false,
        { fs :=
            { w.fs with
              node :=
                Function.update w.fs.node (w.fs.target (receivedFilePathOf e t config))
                  (.file (stringBytes s)) },
          calls := w.calls ++ [TCall.Errorf (GoError.Error e
            (.errGoldenFileMissing (buildGoldenFileName e t (getConfig config))
              (stringBytes s)))] }) := by
  unfold goldenFilePathOf at hgolden
  unfold receivedFilePathOf at hwrite
  have hc := compare_missing e w.fs t (buildGoldenFileName e t (getConfig config))
    (stringBytes s) hgolden
  simp [EqualString, NewReader, hc, writeReceivedFile, WriteFile, Errorf, hwrite,
    receivedFilePathOf]

theorem EqualString_mismatch (e : Env) (t : TestingT) (s : String) (config : List Config)
    (w : World) (g : Bytes) (hgolden : w.fs.lookup (goldenFilePathOf e t config) = .file g)
    (hne : g ≠ stringBytes s)
    (hwrite : w.fs.writeErr (receivedFilePathOf e t config) = none) :
    EqualString e t s config w =
      (some false,
        { fs :=
            { w.fs with
              node :=
                Function.update w.fs.node (w.fs.target (receivedFilePathOf e t config))
                  (.file (stringBytes s)) },
          calls := w.calls ++ [TCall.Errorf (GoError.Error e
            (.errGoldenFileMismatch (buildGoldenFileName e t (getConfig config)) g
              (stringBytes s)))] }) := by
  unfold goldenFilePathOf at hgolden
  unfold receivedFilePathOf at hwrite
  have hc := compare_differ e w.fs t (buildGoldenFileName e t (getConfig config)) g
    (stringBytes s) hgolden hne
  simp [EqualString, NewReader, hc, writeReceivedFile, WriteFile, Errorf, hwrite,
    receivedFilePathOf]

theorem EqualString_equal (e : Env) (t : TestingT) (s : String) (config : List Config)
    (w : World) (hgolden : w.fs.lookup (goldenFilePathOf e t config) = .file (stringBytes s)) :
    EqualString e t s config w = (some true, w) := by
  unfold goldenFilePathOf at hgolden
  have hc := compare_equal e w.fs t (buildGoldenFileName e t (getConfig config))
    (stringBytes s) hgolden
  simp [EqualString, NewReader, hc]

/-- C2: for every test identity, config and string s, if the golden file is missing
or its content differs from the bytes of s, and the write of the received file
succeeds, then EqualString returns false, calls Errorf exactly once and never
FailNow, and afterwards the received file holds exactly the bytes of s, whatever
it held before the call. -/
theorem EqualString_failure_writes_received (e : Env) (t : TestingT) (s : String)
    (config : List Config) (w : World)
    (hgolden : w.fs.lookup (goldenFilePathOf e t config) = .missing ∨
      ∃ g, w.fs.lookup (goldenFilePathOf e t config) = .file g ∧ g ≠ stringBytes s)
    (hwrite : w.fs.writeErr (receivedFilePathOf e t config) = none) :
    (EqualString e t s config w).1 = some false
      ∧ (∃ msg, (EqualString e t s config w).2.calls = w.calls ++ [TCall.Errorf msg])
      ∧ (EqualString e t s config w).2.fs.lookup (receivedFilePathOf e t config) =
          .file (stringBytes s) := by
  rcases hgolden with hmiss | ⟨g, hg, hne⟩
  · rw [EqualString_missing e t s config w hmiss hwrite]
    exact ⟨rfl, ⟨_, rfl⟩, by simp [FileSystem.lookup]⟩
  · rw [EqualString_mismatch e t s config w g hg hne hwrite]
    exact ⟨rfl, ⟨_, rfl⟩, by simp [FileSystem.lookup]⟩

/-- C3: for every test identity, config and string s, if the golden file exists and
its content equals the bytes of s, then EqualString returns true, calls neither
Errorf nor FailNow, and leaves the whole file system unchanged. -/
theorem EqualString_success_no_effect (e : Env) (t : TestingT) (s : String)
    (config : List Config) (w : World)
    (hgolden : w.fs.lookup (goldenFilePathOf e t config) = .file (stringBytes s)) :
    (EqualString e t s config w).1 = some true
      ∧ (EqualString e t s config w).2.calls = w.calls
      ∧ (EqualString e t s config w).2.fs = w.fs := by
  rw [EqualString_equal e t s config w hgolden]
  exact ⟨rfl, rfl, rfl⟩

/-- C4: round-trip promotion. If EqualString fails because the golden file is
missing or different, with the received file written, then after copying the
resulting received file to the golden file path, EqualString with the same test
identity, config and s returns true. -/
theorem EqualString_promotion_roundtrip (e : Env) (t : TestingT) (s : String)
    (config : List Config) (w : World) (calls : List TCall)
    (hgolden : w.fs.lookup (goldenFilePathOf e t config) = .missing ∨
      ∃ g, w.fs.lookup (goldenFilePathOf e t config) = .file g ∧ g ≠ stringBytes s)
    (hwrite : w.fs.writeErr (receivedFilePathOf e t config) = none) :
    (EqualString e t s config w).1 = some false
      ∧ (EqualString e t s config
          ⟨copyFile (EqualString e t s config w).2.fs (receivedFilePathOf e t config)
            (goldenFilePathOf e t config), calls⟩).1 = some true := by
  have hrecv : (EqualString e t s config w).2.fs.lookup (receivedFilePathOf e t config) =
      .file (stringBytes s) := by
    rcases hgolden with hmiss | ⟨g, hg, hne⟩
    · rw [EqualString_missing e t s config w hmiss hwrite]; simp [FileSystem.lookup]
    · rw [EqualString_mismatch e t s config w g hg hne hwrite]; simp [FileSystem.lookup]
  have hfalse : (EqualString e t s config w).1 = some false := by
    rcases hgolden with hmiss | ⟨g, hg, hne⟩
    · rw [EqualString_missing e t s config w hmiss hwrite]
    · rw [EqualString_mismatch e t s config w g hg hne hwrite]
  refine ⟨hfalse, ?_⟩
  rw [EqualString_equal]
  show (copyFile _ _ _).lookup _ = _
  unfold copyFile
  rw [hrecv]
  simp [FileSystem.lookup]

/-- Witness of C2: the golden file holds "golden\n", the received text is "fresh\n",
and a stale, longer received file is replaced. -/
theorem EqualString_failure_writes_received_witness :
    (EqualString sampleEnv sampleT "fresh\n" [] staleWorld).1 = some false
      ∧ (∃ msg, (EqualString sampleEnv sampleT "fresh\n" [] staleWorld).2.calls =
          staleWorld.calls ++ [TCall.Errorf msg])
      ∧ (EqualString sampleEnv sampleT "fresh\n" [] staleWorld).2.fs.lookup
          (receivedFilePathOf sampleEnv sampleT []) = .file (stringBytes "fresh\n") :=
  EqualString_failure_writes_received sampleEnv sampleT "fresh\n" [] staleWorld
    (Or.inr ⟨stringBytes "golden\n", by decide, by decide⟩) (by decide)

/-- Witness of C3: the received text equals the sample golden file. -/
theorem EqualString_success_no_effect_witness :
    (EqualString sampleEnv sampleT "golden\n" [] staleWorld).1 = some true
      ∧ (EqualString sampleEnv sampleT "golden\n" [] staleWorld).2.calls = staleWorld.calls
      ∧ (EqualString sampleEnv sampleT "golden\n" [] staleWorld).2.fs = staleWorld.fs :=
  EqualString_success_no_effect sampleEnv sampleT "golden\n" [] staleWorld (by decide)

/-- Witness of C4: a test without golden file, promoted after its first run. -/
theorem EqualString_promotion_roundtrip_witness :
    (EqualString sampleEnv ⟨"Fresh/Sub", true⟩ "first run\n" [{ Name := "a" }] sampleWorld).1 =
        some false
      ∧ (EqualString sampleEnv ⟨"Fresh/Sub", true⟩ "first run\n" [{ Name := "a" }]
          ⟨copyFile
            (EqualString sampleEnv ⟨"Fresh/Sub", true⟩ "first run\n" [{ Name := "a" }]
              sampleWorld).2.fs
            (receivedFilePathOf sampleEnv ⟨"Fresh/Sub", true⟩ [{ Name := "a" }])
            (goldenFilePathOf sampleEnv ⟨"Fresh/Sub", true⟩ [{ Name := "a" }]), []⟩).1 =
        some true :=
  EqualString_promotion_roundtrip sampleEnv ⟨"Fresh/Sub", true⟩ "first run\n" [{ Name := "a" }]
    sampleWorld [] (Or.inl (by decide)) (by decide)

/-- C8: for every object whose JSON serialization succeeds and every optional
Config, EqualJSON has the same result and the same effects as EqualString on the
serialized text under the Config whose Suffix is ".json" when the caller gave
none and the caller's otherwise; so without an explicit suffix the golden file is
sanitize(testName) ++ [. ++ name] ++ ".golden.json", and with one the caller's
suffix is used. -/
theorem EqualJSON_delegates_to_EqualString {Obj : Type}
    (marshalIndent : Obj → String × Option String) (e : Env) (t : TestingT) (obj : Obj)
    (config : List Config) (w : World) (json : String)
    (hjson : prettyPrintJSON marshalIndent obj = (json, none)) :
    EqualJSON marshalIndent e t obj config w = EqualString e t json [jsonConfig config] w
      ∧ ((getConfig config).Suffix = "" →
          jsonConfig config = { getConfig config with Suffix := ".json" }
            ∧ buildGoldenFileName e t (jsonConfig config) =
              e.BaseName t.Name ++
                (if (getConfig config).Name ≠ "" then "." ++ (getConfig config).Name else "") ++
                ".golden" ++ ".json")
      ∧ ((getConfig config).Suffix ≠ "" →
          jsonConfig config = getConfig config
            ∧ buildGoldenFileName e t (jsonConfig config) =
              e.BaseName t.Name ++
                (if (getConfig config).Name ≠ "" then "." ++ (getConfig config).Name else "") ++
                ".golden" ++ (getConfig config).Suffix) := by
  refine ⟨?_, ?_, ?_⟩
  · simp only [EqualJSON, hjson, jsonConfig]
  · intro hs
    have hc : jsonConfig config = { getConfig config with Suffix := ".json" } := by
      simp [jsonConfig, hs]
    refine ⟨hc, ?_⟩
    rw [buildGoldenFileName_eq e t (jsonConfig config), hc]
    simp
  · intro hs
    have hc : jsonConfig config = getConfig config := by simp [jsonConfig, hs]
    refine ⟨hc, ?_⟩
    rw [buildGoldenFileName_eq e t (jsonConfig config), hc]
    simp [hs]

/-- Witness of C8: a sample text object without a config. -/
theorem EqualJSON_delegates_to_EqualString_witness :
    EqualJSON sampleMarshal sampleEnv sampleT (SampleObj.text "v") [] sampleWorld =
      EqualString sampleEnv sampleT (Quote sampleEnv "v") [jsonConfig []] sampleWorld :=
  (EqualJSON_delegates_to_EqualString sampleMarshal sampleEnv sampleT (SampleObj.text "v") []
    sampleWorld (Quote sampleEnv "v") rfl).1

/-- C9: for every object whose JSON serialization fails and every config and file
system, EqualJSON returns false, calls Errorf exactly once and never FailNow; the
result does not depend on any file (no comparison is made) and the file system
is left unchanged. -/
theorem EqualJSON_marshal_failure {Obj : Type}
    (marshalIndent : Obj → String × Option String) (e : Env) (t : TestingT) (obj : Obj)
    (config : List Config) (w : World) (err : String)
    (hjson : (prettyPrintJSON marshalIndent obj).2 = some err) :
    EqualJSON marshalIndent e t obj config w =
      (some false,
        { fs := w.fs,
          calls := w.calls ++
            [TCall.Errorf ("failed to serialize received object as json: " ++ err)] }) := by
  unfold EqualJSON
  rcases hp : prettyPrintJSON marshalIndent obj with ⟨b, er⟩
  rw [hp] at hjson
  simp only at hjson
  subst hjson
  simp [Errorf]

/-- Witness of C9: a channel does not marshal. -/
theorem EqualJSON_marshal_failure_witness :
    EqualJSON sampleMarshal sampleEnv sampleT SampleObj.channel [] sampleWorld =
      (some false,
        { fs := sampleWorld.fs,
          calls := sampleWorld.calls ++
            [TCall.Errorf ("failed to serialize received object as json: " ++
              "json: unsupported type: chan int")] }) :=
  EqualJSON_marshal_failure sampleMarshal sampleEnv sampleT SampleObj.channel [] sampleWorld
    "json: unsupported type: chan int" rfl

/-! ## Error messages: theorems -/

theorem appendEscapedRune_printable (e : Env) (c : Char)
    (h : IsPrint e c = true ∧ c ≠ dquote ∧ c ≠ backslash) : appendEscapedRune e c = [c] := by
  simp [appendEscapedRune, h.1, h.2.1, h.2.2]

theorem flatMap_appendEscapedRune_printable (e : Env) :
    ∀ (l : List Char), (∀ c ∈ l, IsPrint e c = true ∧ c ≠ dquote ∧ c ≠ backslash) →
      l.flatMap (appendEscapedRune e) = l
  | [], _ => rfl
  | c :: cs, h => by
    rw [List.flatMap_cons, appendEscapedRune_printable e c (h c (List.mem_cons_self c cs)),
      flatMap_appendEscapedRune_printable e cs (fun d hd => h d (List.mem_cons_of_mem c hd))]
    rfl

/-- A name of printable runes without quote and backslash is quoted verbatim. -/
theorem Quote_printable (e : Env) (name : String)
    (h : ∀ c ∈ name.data, IsPrint e c = true ∧ c ≠ dquote ∧ c ≠ backslash) :
    Quote e name = "\"" ++ name ++ "\"" := by
  apply String.ext
  simp only [Quote, flatMap_appendEscapedRune_printable e name.data h, String.data_append]
  rfl

set_option maxRecDepth 100000 in
/-- C10 as stated fails: for the golden file name a"b the message of
errGoldenFileMismatch.Error() quotes the name as "a\"b"; the message neither starts
with the name between double quotes nor contains the name. -/
theorem Error_message_escapes_name :
    GoError.Error sampleEnv
        (.errGoldenFileMismatch "a\"b" (stringBytes "golden-data") (stringBytes "received-data")) =
        "failed to verify \"a\\\"b\", received value did not match golden file contents." ++
          "\n\n(-11 +13)\n"
      ∧ ¬ (("failed to verify \"" ++ "a\"b" ++ "\"").data <+:
          (GoError.Error sampleEnv (.errGoldenFileMismatch "a\"b" (stringBytes "golden-data")
            (stringBytes "received-data"))).data)
      ∧ ¬ ("a\"b".data <:+:
          (GoError.Error sampleEnv (.errGoldenFileMismatch "a\"b" (stringBytes "golden-data")
            (stringBytes "received-data"))).data) := by
  decide

/-- C10, amended: for every golden file name and every golden and received content,
the message of errGoldenFileMismatch.Error() is "failed to verify ", the name as
Go quotes it for %q, ", received value did not match golden file contents.",
two newlines, the rendered diff and one newline, and the message of
errGoldenFileMissing.Error() is built likewise; when every rune of the name is
printable and is neither a double quote nor a backslash, the quoted name is the
name verbatim between double quotes, so both messages start with
failed to verify "name". -/
theorem Error_message_shape (e : Env) (name : String) (g r : Bytes) :
    GoError.Error e (.errGoldenFileMismatch name g r) =
        "failed to verify " ++ Quote e name ++
          ", received value did not match golden file contents.\n\n" ++
          e.DiffPrettyText g r ++ "\n"
      ∧ GoError.Error e (.errGoldenFileMissing name r) =
        "failed to verify " ++ Quote e name ++ ", golden file missing.\n\n" ++
          e.DiffPrettyText [] r ++ "\n"
      ∧ ((∀ c ∈ name.data, IsPrint e c = true ∧ c ≠ dquote ∧ c ≠ backslash) →
          GoError.Error e (.errGoldenFileMismatch name g r) =
              "failed to verify \"" ++ name ++ "\"" ++
                ", received value did not match golden file contents.\n\n" ++
                e.DiffPrettyText g r ++ "\n"
            ∧ ("failed to verify \"" ++ name ++ "\"").data <+:
                (GoError.Error e (.errGoldenFileMismatch name g r)).data
            ∧ ("failed to verify \"" ++ name ++ "\"").data <+:
                (GoError.Error e (.errGoldenFileMissing name r)).data) := by
  refine ⟨rfl, rfl, ?_⟩
  intro h
  have hq := Quote_printable e name h
  have h1 : GoError.Error e (.errGoldenFileMismatch name g r) =
      "failed to verify \"" ++ name ++ "\"" ++
        ", received value did not match golden file contents.\n\n" ++
        e.DiffPrettyText g r ++ "\n" := by
    simp only [GoError.Error, hq]
    apply String.ext
    simp [String.data_append]
  have h2 : GoError.Error e (.errGoldenFileMissing name r) =
      "failed to verify \"" ++ name ++ "\"" ++ ", golden file missing.\n\n" ++
        e.DiffPrettyText [] r ++ "\n" := by
    simp only [GoError.Error, hq]
    apply String.ext
    simp [String.data_append]
  refine ⟨h1, ?_, ?_⟩
  · rw [h1]
    simp only [String.data_append]
    exact ((List.prefix_append _ _).trans (List.prefix_append _ _)).trans
      (List.prefix_append _ _)
  · rw [h2]
    simp only [String.data_append]
    exact ((List.prefix_append _ _).trans (List.prefix_append _ _)).trans
      (List.prefix_append _ _)

/-- Witness of the amended C10: the file name of the tests of errors.go. -/
theorem Error_message_shape_witness :
    ("failed to verify \"" ++ "test-goldenfile.txt" ++ "\"").data <+:
      (GoError.Error sampleEnv (.errGoldenFileMismatch "test-goldenfile.txt"
        (stringBytes "golden-data") (stringBytes "received-data"))).data :=
  ((Error_message_shape sampleEnv "test-goldenfile.txt" (stringBytes "golden-data")
    (stringBytes "received-data")).2.2 (by decide)).2.1

/-! ## Paths: theorems -/

theorem splitSlash_noSlash : ∀ (s : List Char), '/' ∉ s → splitSlash s = [s]
  | [], _ => rfl
  | c :: cs, h => by
    have hc : c ≠ '/' := fun hc => h (hc ▸ List.mem_cons_self c cs)
    have hcs : '/' ∉ cs := fun hm => h (List.mem_cons_of_mem c hm)
    simp [splitSlash, hc, splitSlash_noSlash cs hcs]

theorem splitSlash_append (s : List Char) (hs : '/' ∉ s) :
    ∀ (l : List Char), ∃ front last,
      splitSlash l = front ++ [last] ∧ splitSlash (l ++ s) = front ++ [last ++ s]
  | [] => ⟨[], [], rfl, by simp [splitSlash_noSlash s hs]⟩
  | c :: cs => by
    obtain ⟨front, last, h1, h2⟩ := splitSlash_append s hs cs
    by_cases hc : c = '/'
    · refine ⟨[] :: front, last, ?_, ?_⟩
      · simp [splitSlash, hc, h1]
      · simp [splitSlash, hc, h2]
    · cases front with
      | nil =>
        refine ⟨[], c :: last, ?_, ?_⟩
        · simp [splitSlash, hc, h1]
        · simp [splitSlash, hc, h2]
      | cons f fs =>
        refine ⟨(c :: f) :: fs, last, ?_, ?_⟩
        · simp [splitSlash, hc, h1]
        · simp [splitSlash, hc, h2]

theorem backtrack_le (out : List Char) (dotdot : Nat) : ∀ w, backtrack out dotdot w ≤ w
  | 0 => Nat.le_refl 0
  | w + 1 => by
    unfold backtrack
    split
    · exact Nat.le_succ_of_le (backtrack_le out dotdot w)
    · exact Nat.le_refl _

theorem cleanStep_length_le (rooted : Bool) (st : CleanState) (el : List Char) :
    (cleanStep rooted st el).out.length ≤ st.out.length + 1 + el.length := by
  unfold cleanStep
  split
  · omega
  · split
    · omega
    · split
      · rename_i h
        subst h
        split
        · simp only [List.length_take]
          omega
        · split
          · split <;> simp
          · omega
      · split <;> simp only [List.length_append, List.length_cons, List.length_nil] <;> omega

theorem cleanStep_length_ge (rooted : Bool) (st : CleanState) (el : List Char)
    (h : 3 ≤ el.length) : st.out.length + el.length ≤ (cleanStep rooted st el).out.length := by
  have h0 : el ≠ [] := by intro h0; simp [h0] at h
  have h1 : el ≠ ['.'] := by intro h0; simp [h0] at h
  have h2 : el ≠ ['.', '.'] := by intro h0; simp [h0] at h
  simp only [cleanStep, h0, h1, h2, if_false]
  split <;> simp

/-- Appending slash-free text to a non-empty path only changes the last element
that the loop of `path.Clean` processes. -/
theorem cleanLoop_append (p s : List Char) (hp : p ≠ []) (hs : '/' ∉ s) :
    ∃ rooted st last,
      cleanLoop p = cleanStep rooted st last ∧ cleanLoop (p ++ s) = cleanStep rooted st (last ++ s) := by
  cases p with
  | nil => exact absurd rfl hp
  | cons c cs =>
    by_cases hc : c = '/'
    · obtain ⟨front, last, h1, h2⟩ := splitSlash_append s hs cs
      refine ⟨true, front.foldl (cleanStep true) ⟨['/'], 1⟩, last, ?_, ?_⟩
      · simp [cleanLoop, hc, h1, List.foldl_append]
      · simp [cleanLoop, hc, h2, List.foldl_append]
    · obtain ⟨front, last, h1, h2⟩ := splitSlash_append s hs (c :: cs)
      refine ⟨false, front.foldl (cleanStep false) ⟨[], 0⟩, last, ?_, ?_⟩
      · simp only [cleanLoop, List.head?_cons, Option.some.injEq, hc, decide_False,
          Bool.false_eq_true, if_false, h1, List.foldl_append, List.foldl_cons, List.foldl_nil]
      · have h2' : splitSlash (c :: (cs ++ s)) = front ++ [last ++ s] := h2
        simp only [cleanLoop, List.cons_append, List.head?_cons, Option.some.injEq, hc,
          decide_False, Bool.false_eq_true, if_false, h2', List.foldl_append, List.foldl_cons,
          List.foldl_nil]

theorem Clean_length_le (p : String) (hp : p ≠ "") :
    (Clean p).length ≤ max 1 (cleanLoop p.data).out.length := by
  simp only [Clean, hp, if_false]
  split
  · exact le_max_left _ _
  · exact le_max_right _ _

/-- The path cleaned after appending `".received"` is longer than the cleaned path. -/
theorem Clean_received_longer (p : String) :
    (Clean p).length < (Clean (p ++ ".received")).length := by
  by_cases hp : p = ""
  · subst hp
    decide
  · have hpd : p.data ≠ [] := fun h => hp (String.ext h)
    have hp2 : p ++ ".received" ≠ "" := by
      intro h
      have := congrArg String.data h
      simp [String.data_append] at this
    obtain ⟨rooted, st, last, h1, h2⟩ :=
      cleanLoop_append p.data ".received".data hpd (by decide)
    have hle := Clean_length_le p hp
    rw [h1] at hle
    have hA := cleanStep_length_le rooted st last
    have hlen : (last ++ ".received".data).length = last.length + 9 :=
      List.length_append last ".received".data
    have hB := cleanStep_length_ge rooted st (last ++ ".received".data)
      (by rw [hlen]; omega)
    have hout : (Clean (p ++ ".received")).length =
        (cleanStep rooted st (last ++ ".received".data)).out.length := by
      have h2' : cleanLoop (p ++ ".received").data =
          cleanStep rooted st (last ++ ".received".data) := by
        rw [String.data_append]; exact h2
      have hne : (cleanStep rooted st (last ++ ".received".data)).out.length ≠ 0 := by omega
      simp only [Clean, hp2, if_false, h2', hne]
      rfl
    rw [hout]
    have hmax : max 1 (cleanStep rooted st last).out.length ≤ st.out.length + 1 + last.length + 1 :=
      max_le (by omega) (by omega)
    omega

/-- The received file path is longer than the golden file path of the same name. -/
theorem Join_received_longer (dir name : String) :
    (Join dir name).length < (Join dir (buildReceivedFileName name)).length := by
  have hr : buildReceivedFileName name ≠ "" := by
    intro h
    have := congrArg String.data h
    simp [buildReceivedFileName, String.data_append] at this
  unfold Join
  by_cases hd : dir = ""
  · simp only [hd, if_true, hr, if_false]
    by_cases hn : name = ""
    · subst hn
      decide
    · simp only [hn, if_false]
      exact Clean_received_longer name
  · simp only [hd, if_false]
    have : dir ++ "/" ++ buildReceivedFileName name = (dir ++ "/" ++ name) ++ ".received" := by
      apply String.ext
      simp [buildReceivedFileName, String.data_append]
    rw [this]
    exact Clean_received_longer _

theorem receivedFilePath_ne_goldenFilePath (e : Env) (goldenFileName : String) :
    buildReceivedFilePath e goldenFileName ≠ Join e.GoldenFilePath goldenFileName := by
  intro h
  have := Join_received_longer e.GoldenFilePath goldenFileName
  unfold buildReceivedFilePath at h
  rw [h] at this
  exact Nat.lt_irrefl _ this

/-! ## What an assertion can write: theorems -/

/-- The only file that `writeReceivedFile` can change is the target of the received
file path; no link is changed. -/
theorem writeReceivedFile_frame (e : Env) (t : TestingT) (goldenFileName : String)
    (received : Bytes) (w : World) :
    (writeReceivedFile e t goldenFileName received w).2.fs.target = w.fs.target
      ∧ ∀ k, k ≠ w.fs.target (buildReceivedFilePath e goldenFileName) →
          (writeReceivedFile e t goldenFileName received w).2.fs.node k = w.fs.node k := by
  rcases hw : w.fs.writeErr (buildReceivedFilePath e goldenFileName) with _ | fault
  · refine ⟨by simp [writeReceivedFile, WriteFile, hw], fun k hk => ?_⟩
    simp [writeReceivedFile, WriteFile, hw, Function.update_noteq hk]
  · cases fault with
    | openFailed msg =>
      refine ⟨by simp [writeReceivedFile, WriteFile, hw, FailNow, Errorf], fun k _ => ?_⟩
      simp [writeReceivedFile, WriteFile, hw, FailNow, Errorf]
    | writeFailed written msg =>
      refine ⟨by simp [writeReceivedFile, WriteFile, hw, FailNow, Errorf], fun k hk => ?_⟩
      simp [writeReceivedFile, WriteFile, hw, FailNow, Errorf, Function.update_noteq hk]

/-- The only file that `EqualString` can change is the target of its received file
path; no link is changed. -/
theorem EqualString_frame (e : Env) (t : TestingT) (s : String) (config : List Config)
    (w : World) :
    (EqualString e t s config w).2.fs.target = w.fs.target
      ∧ ∀ k, k ≠ w.fs.target (receivedFilePathOf e t config) →
          (EqualString e t s config w).2.fs.node k = w.fs.node k := by
  unfold receivedFilePathOf
  rcases hc : compare e w.fs t (buildGoldenFileName e t (getConfig config)) (NewReader s)
    with _ | err
  · simp [EqualString, hc]
  · cases err with
    | errGoldenFileMismatch n g r =>
      have h := writeReceivedFile_frame e t (buildGoldenFileName e t (getConfig config)) r
        (Errorf (GoError.Error e (.errGoldenFileMismatch n g r)) w)
      simp only [EqualString, hc]
      rcases hx : writeReceivedFile e t (buildGoldenFileName e t (getConfig config)) r
        (Errorf (GoError.Error e (.errGoldenFileMismatch n g r)) w) with ⟨_ | v, w1⟩ <;>
        rw [hx] at h <;> exact h
    | errGoldenFileMissing n r =>
      have h := writeReceivedFile_frame e t (buildGoldenFileName e t (getConfig config)) r
        (Errorf (GoError.Error e (.errGoldenFileMissing n r)) w)
      simp only [EqualString, hc]
      rcases hx : writeReceivedFile e t (buildGoldenFileName e t (getConfig config)) r
        (Errorf (GoError.Error e (.errGoldenFileMissing n r)) w) with ⟨_ | v, w1⟩ <;>
        rw [hx] at h <;> exact h
    | other msg =>
      cases hf : t.FailNowReturns <;> simp [EqualString, hc, FailNow, Errorf, hf]

theorem EqualJSON_frame {Obj : Type} (marshalIndent : Obj → String × Option String) (e : Env)
    (t : TestingT) (obj : Obj) (config : List Config) (w : World) :
    (EqualJSON marshalIndent e t obj config w).2.fs.target = w.fs.target
      ∧ ∀ k, k ≠ w.fs.target (receivedFilePathOf e t [jsonConfig config]) →
          (EqualJSON marshalIndent e t obj config w).2.fs.node k = w.fs.node k := by
  unfold EqualJSON
  rcases hj : prettyPrintJSON marshalIndent obj with ⟨json, _ | err⟩
  · exact EqualString_frame e t json [jsonConfig config] w
  · exact ⟨rfl, fun _ _ => rfl⟩

/-- What a path names is unchanged by a step that keeps the links and the file
behind the path. -/
theorem lookup_unchanged (fs1 fs : FileSystem) (p : String) (ht : fs1.target = fs.target)
    (hn : fs1.node (fs.target p) = fs.node (fs.target p)) : fs1.lookup p = fs.lookup p := by
  unfold FileSystem.lookup
  rw [ht, hn]

/-- C5 as stated fails: when the received file path is a link to the golden file,
a failing EqualString writes the received bytes through the link, and the golden
file, which held "golden\n", afterwards holds "fresh\n". -/
theorem golden_file_overwritten_through_link :
    linkedWorld.fs.lookup (goldenFilePathOf sampleEnv sampleT []) =
        .file (stringBytes "golden\n")
      ∧ (EqualString sampleEnv sampleT "fresh\n" [] linkedWorld).1 = some false
      ∧ (EqualString sampleEnv sampleT "fresh\n" [] linkedWorld).2.fs.lookup
          (goldenFilePathOf sampleEnv sampleT []) = .file (stringBytes "fresh\n")
      ∧ (EqualString sampleEnv sampleT "fresh\n" [] linkedWorld).2.fs.lookup
          (goldenFilePathOf sampleEnv sampleT []) ≠
        linkedWorld.fs.lookup (goldenFilePathOf sampleEnv sampleT []) := by
  decide

/-- C5, amended: for every test identity, config, value and starting file system,
the received file path of a call of EqualString (and of EqualJSON) is a different
path from its golden file path; the call changes no link and no file other than
the one its received file path names; and when the received file path does not
name, through a link, the same file as the golden file path, what the golden file
path names is the same after the call as before, whether the call succeeds or
fails. -/
theorem golden_file_read_only (e : Env) (t : TestingT) (s : String) (config : List Config)
    (w : World) :
    receivedFilePathOf e t config ≠ goldenFilePathOf e t config
      ∧ (EqualString e t s config w).2.fs.target = w.fs.target
      ∧ (∀ p, w.fs.target p ≠ w.fs.target (receivedFilePathOf e t config) →
          (EqualString e t s config w).2.fs.lookup p = w.fs.lookup p)
      ∧ (w.fs.target (goldenFilePathOf e t config) ≠
            w.fs.target (receivedFilePathOf e t config) →
          (EqualString e t s config w).2.fs.lookup (goldenFilePathOf e t config) =
            w.fs.lookup (goldenFilePathOf e t config))
      ∧ ∀ (Obj : Type) (marshalIndent : Obj → String × Option String) (obj : Obj),
          receivedFilePathOf e t [jsonConfig config] ≠ goldenFilePathOf e t [jsonConfig config]
          ∧ (EqualJSON marshalIndent e t obj config w).2.fs.target = w.fs.target
          ∧ (∀ p, w.fs.target p ≠ w.fs.target (receivedFilePathOf e t [jsonConfig config]) →
              (EqualJSON marshalIndent e t obj config w).2.fs.lookup p = w.fs.lookup p)
          ∧ (w.fs.target (goldenFilePathOf e t [jsonConfig config]) ≠
                w.fs.target (receivedFilePathOf e t [jsonConfig config]) →
              (EqualJSON marshalIndent e t obj config w).2.fs.lookup
                  (goldenFilePathOf e t [jsonConfig config]) =
                w.fs.lookup (goldenFilePathOf e t [jsonConfig config])) := by
  have hne : ∀ cfg : List Config, receivedFilePathOf e t cfg ≠ goldenFilePathOf e t cfg :=
    fun cfg => receivedFilePath_ne_goldenFilePath e (buildGoldenFileName e t (getConfig cfg))
  have hS := EqualString_frame e t s config w
  have hSp : ∀ p, w.fs.target p ≠ w.fs.target (receivedFilePathOf e t config) →
      (EqualString e t s config w).2.fs.lookup p = w.fs.lookup p :=
    fun p hp => lookup_unchanged _ _ p hS.1 (hS.2 _ hp)
  refine ⟨hne config, hS.1, hSp, hSp _, ?_⟩
  intro Obj marshalIndent obj
  have hJ := EqualJSON_frame marshalIndent e t obj config w
  have hJp : ∀ p, w.fs.target p ≠ w.fs.target (receivedFilePathOf e t [jsonConfig config]) →
      (EqualJSON marshalIndent e t obj config w).2.fs.lookup p = w.fs.lookup p :=
    fun p hp => lookup_unchanged _ _ p hJ.1 (hJ.2 _ hp)
  exact ⟨hne [jsonConfig config], hJ.1, hJp, hJp _⟩

/-- Witness of the amended C5: in the sample world, which has no links, a failing
EqualString leaves the golden file as it was. -/
theorem golden_file_read_only_witness :
    (EqualString sampleEnv sampleT "fresh\n" [] staleWorld).2.fs.lookup
        (goldenFilePathOf sampleEnv sampleT []) =
      staleWorld.fs.lookup (goldenFilePathOf sampleEnv sampleT []) :=
  (golden_file_read_only sampleEnv sampleT "fresh\n" [] staleWorld).2.2.2.1 (by decide)

/-- The received file path can lie outside `GoldenFilePath`: `Config.Name` is not
sanitized and `path.Join` resolves its `..` elements, so with the name `/../../x` the
received file of the sample test is `x.golden.txt.received` in the working
directory. -/
theorem receivedFilePath_outside_GoldenFilePath :
    sampleEnv.GoldenFilePath = "./testdata"
      ∧ receivedFilePathOf sampleEnv sampleT [{ Name := "/../../x" }] =
          "x.golden.txt.received" := by
  decide

/-! ## Distinct names: theorems -/

/-- Text that starts with `.golden` and also with `d` followed by a dot: `d` is empty
or starts with `.golden`. -/
theorem golden_prefix_split (d x z : List Char) (hz : z.head? = some '.')
    (h : ".golden".data ++ x = d ++ z) : d = [] ∨ ".golden".data <+: d := by
  rcases List.append_eq_append_iff.mp h with ⟨a1, h1, _⟩ | ⟨c1, h1, h2⟩
  · exact Or.inr ⟨a1, h1.symm⟩
  · cases c1 with
    | nil =>
      right
      rw [List.append_nil] at h1
      exact ⟨[], by rw [List.append_nil]; exact h1⟩
    | cons c0 cs =>
      rw [h2] at hz
      have hc0 : c0 = '.' := by simpa using hz
      subst hc0
      cases d with
      | nil => exact Or.inl rfl
      | cons d0 ds =>
        exfalso
        have h3 : "golden".data = ds ++ '.' :: cs := by
          have := congrArg List.tail h1
          simpa using this
        have hmem : '.' ∈ "golden".data := by rw [h3]; simp
        exact absurd hmem (by decide)

theorem golden_collision_split (a b x y : List Char)
    (h : a ++ (".golden".data ++ x) = b ++ (".golden".data ++ y)) :
    a = b ∨ (a ++ ".golden".data) <+: b ∨ (b ++ ".golden".data) <+: a := by
  rcases List.append_eq_append_iff.mp h with ⟨d, h1, h2⟩ | ⟨d, h1, h2⟩
  · rcases golden_prefix_split d x (".golden".data ++ y) rfl h2 with hd | ⟨r, hr⟩
    · left; rw [h1, hd, List.append_nil]
    · right; left
      exact ⟨r, by rw [h1, ← hr, List.append_assoc]⟩
  · rcases golden_prefix_split d y (".golden".data ++ x) rfl h2 with hd | ⟨r, hr⟩
    · left; rw [h1, hd, List.append_nil]
    · right; right
      exact ⟨r, by rw [h1, ← hr, List.append_assoc]⟩

theorem buildGoldenFileName_data (e : Env) (t : TestingT) (c : Config) :
    (buildGoldenFileName e t c).data =
      (e.BaseName t.Name).data ++ ((nameSegment c).data ++ (".golden".data ++
        (if c.Suffix ≠ "" then c.Suffix else ".txt").data)) := by
  simp only [buildGoldenFileName, nameSegment, String.data_append, List.append_assoc]

theorem buildGoldenFileName_ne_of_segments (e : Env) (t : TestingT) (c1 c2 : Config)
    (hname : c1.Name ≠ c2.Name)
    (h12 : ¬ (nameSegment c1 ++ ".golden").data <+: (nameSegment c2).data)
    (h21 : ¬ (nameSegment c2 ++ ".golden").data <+: (nameSegment c1).data) :
    buildGoldenFileName e t c1 ≠ buildGoldenFileName e t c2 := by
  intro h
  have hd := congrArg String.data h
  rw [buildGoldenFileName_data, buildGoldenFileName_data] at hd
  rcases golden_collision_split _ _ _ _ (List.append_cancel_left hd) with h0 | h1 | h2
  · exact hname (nameSegment_injective (String.ext h0))
  · exact h12 (by rw [String.data_append]; exact h1)
  · exact h21 (by rw [String.data_append]; exact h2)


theorem splitSlash_ne_nil : ∀ (l : List Char), splitSlash l ≠ []
  | [] => by simp [splitSlash]
  | c :: cs => by
    unfold splitSlash
    split
    · simp
    · split <;> simp

theorem splitSlash_append_slash (m : List Char) :
    ∀ (l : List Char), splitSlash (l ++ '/' :: m) = splitSlash l ++ splitSlash m
  | [] => by simp [splitSlash]
  | c :: cs => by
    have ih := splitSlash_append_slash m cs
    by_cases hc : c = '/'
    · simp [splitSlash, hc, ih]
    · rcases hs : splitSlash cs with _ | ⟨el, els⟩
      · exact absurd hs (splitSlash_ne_nil cs)
      · simp [splitSlash, hc, ih, hs]

theorem joinSlash_splitSlash : ∀ (l : List Char), joinSlash (splitSlash l) = l
  | [] => rfl
  | c :: cs => by
    have ih := joinSlash_splitSlash cs
    rcases hs : splitSlash cs with _ | ⟨el, els⟩
    · exact absurd hs (splitSlash_ne_nil cs)
    · rw [hs] at ih
      by_cases hc : c = '/'
      · subst hc
        simp [splitSlash, hs, joinSlash, ih]
      · cases els with
        | nil =>
          simp only [joinSlash] at ih
          simp [splitSlash, hc, hs, joinSlash, ih]
        | cons e2 es =>
          simp only [joinSlash] at ih
          simp [splitSlash, hc, hs, joinSlash, ih]

/-- An element that `path.Clean` copies: not empty, not `.`, not `..`. -/
theorem cleanStep_real (rooted : Bool) (st : CleanState) (el : List Char)
    (h : el ≠ [] ∧ el ≠ ['.'] ∧ el ≠ ['.', '.']) :
    (cleanStep rooted st el).out =
      (if (rooted = true ∧ st.out.length ≠ 1) ∨ (rooted = false ∧ st.out.length ≠ 0) then
        st.out ++ ['/'] else st.out) ++ el := by
  simp only [cleanStep, h.1, h.2.1, h.2.2, if_false]

theorem foldl_cleanStep_real (rooted : Bool) :
    ∀ (els : List (List Char)), els ≠ [] →
      (∀ el ∈ els, el ≠ [] ∧ el ≠ ['.'] ∧ el ≠ ['.', '.']) → ∀ (st : CleanState),
      (els.foldl (cleanStep rooted) st).out =
        (if (rooted = true ∧ st.out.length ≠ 1) ∨ (rooted = false ∧ st.out.length ≠ 0) then
          st.out ++ ['/'] else st.out) ++ joinSlash els
  | [], h, _, _ => absurd rfl h
  | [el], _, hr, st => by
    simp only [List.foldl_cons, List.foldl_nil, joinSlash]
    exact cleanStep_real rooted st el (hr el (List.mem_singleton_self el))
  | el :: e2 :: els, _, hr, st => by
    have h1 := cleanStep_real rooted st el (hr el (List.mem_cons_self _ _))
    have hne : el ≠ [] := (hr el (List.mem_cons_self _ _)).1
    have hlen : 0 < el.length := List.length_pos.mpr hne
    have ih := foldl_cleanStep_real rooted (e2 :: els) (by simp)
      (fun x hx => hr x (List.mem_cons_of_mem _ hx)) (cleanStep rooted st el)
    rw [List.foldl_cons, ih, h1]
    have hsep : ((rooted = true ∧ ((if (rooted = true ∧ st.out.length ≠ 1) ∨
        (rooted = false ∧ st.out.length ≠ 0) then st.out ++ ['/'] else st.out) ++ el).length ≠ 1) ∨
        (rooted = false ∧ ((if (rooted = true ∧ st.out.length ≠ 1) ∨
        (rooted = false ∧ st.out.length ≠ 0) then st.out ++ ['/'] else st.out) ++ el).length ≠ 0)) := by
      cases rooted
      · right
        refine ⟨rfl, ?_⟩
        simp only [List.length_append]
        omega
      · left
        refine ⟨rfl, ?_⟩
        by_cases h1 : st.out.length = 1
        · rw [if_neg (by simp [h1])]
          simp only [List.length_append]
          omega
        · rw [if_pos (by simp [h1])]
          simp only [List.length_append, List.length_cons, List.length_nil]
          omega
    rw [if_pos hsep]
    simp [joinSlash, List.append_assoc]

theorem foldl_cleanStep_plain (rooted : Bool) (st : CleanState) :
    ∃ pre : List Char, ∀ l : List Char,
      (∀ el ∈ splitSlash l, el ≠ [] ∧ el ≠ ['.'] ∧ el ≠ ['.', '.']) →
      ((splitSlash l).foldl (cleanStep rooted) st).out = pre ++ l :=
  ⟨_, fun l hp => by
    rw [foldl_cleanStep_real rooted (splitSlash l) (splitSlash_ne_nil l) hp st,
      joinSlash_splitSlash]⟩

/-- Behind a non-empty directory and a slash, the loop of `path.Clean` copies a
name all of whose elements it copies, behind a text fixed by the directory. -/
theorem cleanLoop_append_plain (d : List Char) (hd : d ≠ []) :
    ∃ pre : List Char, ∀ l : List Char,
      (∀ el ∈ splitSlash l, el ≠ [] ∧ el ≠ ['.'] ∧ el ≠ ['.', '.']) →
      (cleanLoop (d ++ '/' :: l)).out = pre ++ l := by
  cases d with
  | nil => exact absurd rfl hd
  | cons c cs =>
    by_cases hc : c = '/'
    · obtain ⟨pre, hpre⟩ :=
        foldl_cleanStep_plain true ((splitSlash cs).foldl (cleanStep true) ⟨['/'], 1⟩)
      refine ⟨pre, fun l hp => ?_⟩
      rw [← hpre l hp]
      simp [cleanLoop, hc, splitSlash_append_slash, List.foldl_append]
    · obtain ⟨pre, hpre⟩ :=
        foldl_cleanStep_plain false ((splitSlash (c :: cs)).foldl (cleanStep false) ⟨[], 0⟩)
      refine ⟨pre, fun l hp => ?_⟩
      rw [← hpre l hp]
      have hsplit : splitSlash (c :: (cs ++ '/' :: l)) = splitSlash (c :: cs) ++ splitSlash l :=
        splitSlash_append_slash l (c :: cs)
      simp only [cleanLoop, List.cons_append, List.head?_cons, Option.some.injEq, hc,
        decide_False, Bool.false_eq_true, if_false, hsplit, List.foldl_append]

theorem plainPath_iff (f : String) :
    plainPath f = true ↔ ∀ el ∈ splitSlash f.data, el ≠ [] ∧ el ≠ ['.'] ∧ el ≠ ['.', '.'] := by
  simp [plainPath, List.all_eq_true]

theorem plainPath_ne_nil (f : String) (hf : plainPath f = true) : f.data ≠ [] := by
  intro h0
  exact ((plainPath_iff f).mp hf [] (by rw [h0]; simp [splitSlash])).1 rfl

/-- On the file names that `path.Clean` leaves as they are, `path.Join` with a
directory puts a fixed text in front of the name. -/
theorem Join_plain (dir : String) :
    ∃ pre : List Char, ∀ f : String, plainPath f = true → (Join dir f).data = pre ++ f.data := by
  by_cases hd : dir = ""
  · refine ⟨[], fun f hf => ?_⟩
    have hp := (plainPath_iff f).mp hf
    have hfne : f.data ≠ [] := plainPath_ne_nil f hf
    have hf0 : f ≠ "" := fun h => hfne (by rw [h])
    have hroot : (f.data.head? = some '/') = False := by
      apply eq_false
      intro hh
      rcases hfd : f.data with _ | ⟨c, cs⟩
      · exact hfne hfd
      · rw [hfd] at hh
        have hc : c = '/' := by simpa using hh
        have := (hp [] (by rw [hfd, hc]; simp [splitSlash])).1
        exact this rfl
    have hout : (cleanLoop f.data).out = f.data := by
      simp only [cleanLoop, hroot, decide_False, Bool.false_eq_true, if_false]
      rw [foldl_cleanStep_real false (splitSlash f.data) (splitSlash_ne_nil _) hp]
      simp [joinSlash_splitSlash]
    have hlen : f.data.length ≠ 0 := fun h => hfne (List.length_eq_zero.mp h)
    simp only [Join, hd, if_true, hf0, if_false, Clean, hout, hlen, List.nil_append]
  · have hdd : dir.data ≠ [] := fun h => hd (String.ext h)
    obtain ⟨pre, hpre⟩ := cleanLoop_append_plain dir.data hdd
    refine ⟨pre, fun f hf => ?_⟩
    have hp := (plainPath_iff f).mp hf
    have hfne : f.data ≠ [] := plainPath_ne_nil f hf
    have hne : dir ++ "/" ++ f ≠ "" := by
      intro h
      have := congrArg String.data h
      simp [String.data_append, hdd] at this
    have hdata : (dir ++ "/" ++ f).data = dir.data ++ '/' :: f.data := by
      simp [String.data_append]
    have hout := hpre f.data hp
    have hlen : (pre ++ f.data).length ≠ 0 := by
      intro h
      exact hfne (List.append_eq_nil.mp (List.length_eq_zero.mp h)).2
    simp only [Join, hd, if_false, Clean, hne, hdata, hout, hlen]

/-- Two different file names that `path.Clean` leaves as they are give different
paths in one directory. -/
theorem Join_injective_plain (dir f1 f2 : String) (h1 : plainPath f1 = true)
    (h2 : plainPath f2 = true) (h : Join dir f1 = Join dir f2) : f1 = f2 := by
  obtain ⟨pre, hpre⟩ := Join_plain dir
  have hd := congrArg String.data h
  rw [hpre f1 h1, hpre f2 h2] at hd
  exact String.ext (List.append_cancel_left hd)

/-- A name segment that does not contain `.golden` is not the extension of another
one by `.golden`. -/
theorem not_prefix_of_not_infix (a b : List Char) (h : ¬ ".golden".data <:+: b) :
    ¬ (a ++ ".golden".data) <+: b := by
  rintro ⟨r, hr⟩
  exact h ⟨a, r, hr⟩

/-- C7 as stated fails. The Configs {Name:"x", Suffix:".golden.txt"} and
{Name:"x.golden"} have different names and give the same golden file name; the
Configs {Name:"a/../b"} and {Name:"c/../b"} have different names and different
golden file names, and path.Join resolves both to the same golden file path. -/
theorem buildGoldenFileName_name_collision :
    (({ Name := "x", Suffix := ".golden.txt" } : Config).Name ≠
        ({ Name := "x.golden" } : Config).Name
      ∧ buildGoldenFileName sampleEnv sampleT { Name := "x", Suffix := ".golden.txt" } =
          buildGoldenFileName sampleEnv sampleT { Name := "x.golden" }
      ∧ buildGoldenFileName sampleEnv sampleT { Name := "x.golden" } =
          "CustomConfig.x.golden.golden.txt")
      ∧ (({ Name := "a/../b" } : Config).Name ≠ ({ Name := "c/../b" } : Config).Name
        ∧ buildGoldenFileName sampleEnv sampleT { Name := "a/../b" } ≠
            buildGoldenFileName sampleEnv sampleT { Name := "c/../b" }
        ∧ goldenFilePathOf sampleEnv sampleT [{ Name := "a/../b" }] =
            goldenFilePathOf sampleEnv sampleT [{ Name := "c/../b" }]
        ∧ goldenFilePathOf sampleEnv sampleT [{ Name := "c/../b" }] =
            "testdata/b.golden.txt") := by
  decide

/-- C7, amended: for every test identity and every two Configs whose Name fields
differ, whatever their Suffix fields are, buildGoldenFileName returns two
different file names unless the name segment of one Config (".{Name}", empty for
an empty Name) is the name segment of the other followed by ".golden"; and when
moreover neither file name has an empty, "." or ".." path element, the two
assertions are compared against different golden file paths. -/
theorem distinct_names_distinct_golden_files (e : Env) (t : TestingT) (c1 c2 : Config)
    (hname : c1.Name ≠ c2.Name)
    (h12 : ¬ (nameSegment c1 ++ ".golden").data <+: (nameSegment c2).data)
    (h21 : ¬ (nameSegment c2 ++ ".golden").data <+: (nameSegment c1).data) :
    buildGoldenFileName e t c1 ≠ buildGoldenFileName e t c2
      ∧ (plainPath (buildGoldenFileName e t c1) = true →
          plainPath (buildGoldenFileName e t c2) = true →
          goldenFilePathOf e t [c1] ≠ goldenFilePathOf e t [c2]) := by
  have hne := buildGoldenFileName_ne_of_segments e t c1 c2 hname h12 h21
  refine ⟨hne, fun hp1 hp2 h => hne ?_⟩
  exact Join_injective_plain e.GoldenFilePath _ _ hp1 hp2 h

/-- Witness of the amended C7: the names "a" and "b" under different suffixes. -/
theorem distinct_names_distinct_golden_files_witness :
    buildGoldenFileName sampleEnv sampleT { Name := "a" } ≠
        buildGoldenFileName sampleEnv sampleT { Name := "b", Suffix := ".json" }
      ∧ goldenFilePathOf sampleEnv sampleT [{ Name := "a" }] ≠
        goldenFilePathOf sampleEnv sampleT [{ Name := "b", Suffix := ".json" }] :=
  ⟨(distinct_names_distinct_golden_files sampleEnv sampleT { Name := "a" }
      { Name := "b", Suffix := ".json" } (by decide) (by decide) (by decide)).1,
    (distinct_names_distinct_golden_files sampleEnv sampleT { Name := "a" }
      { Name := "b", Suffix := ".json" } (by decide) (by decide) (by decide)).2
      (by decide) (by decide)⟩

end Goldenfiles
